import Mathlib

/-!
Verification of the date-based timeline layout engine of the
obsidian-timeline plugin (src/main.ts), as a shallow embedding in Lean.

Numbers: timestamps (Date.getTime values) are integers; derived positions
are JavaScript numbers modelled as exact rationals together with the
non-finite values NaN and plus or minus infinity, which the source can
produce by dividing by a zero time range.  Math.min, Math.max and
multiplication follow the IEEE-754 rules the JavaScript runtime applies to
those values.
-/

/-- A JavaScript number as it appears in this code: a finite value
(modelled exactly as a rational), one of the two infinities, or NaN. -/
inductive JSNum where
  | nan : JSNum
  | posInf : JSNum
  | negInf : JSNum
  | fin : ℚ → JSNum
deriving DecidableEq

/-- Projection to a rational, sending every non-finite value to 0.
Used only to state theorems whose hypotheses force the value to be
finite. -/
def JSNum.toQ : JSNum → ℚ
  | fin q => q
  | _ => 0

/-- Multiplication of a JavaScript number by the positive constant 100:
NaN stays NaN, infinities keep their sign. -/
def JSNum.mul100 : JSNum → JSNum
  | nan => nan
  | posInf => posInf
  | negInf => negInf
  | fin q => fin (q * 100)

/-- Math.max of a JavaScript number and a finite constant: NaN propagates,
plus infinity wins, minus infinity loses.  On finite values the branch is
written out so that the definition evaluates by kernel reduction. -/
def JSNum.jsMax : JSNum → ℚ → JSNum
  | nan, _ => nan
  | posInf, _ => posInf
  | negInf, c => fin c
  | fin q, c => fin (if q ≤ c then c else q)

/-- Math.min of a JavaScript number and a finite constant: NaN propagates,
minus infinity wins, plus infinity loses. -/
def JSNum.jsMin : JSNum → ℚ → JSNum
  | nan, _ => nan
  | posInf, c => fin c
  | negInf, _ => negInf
  | fin q, c => fin (if q ≤ c then q else c)

/-- Division of two finite integer-valued JavaScript numbers.  The divisor
arises as a difference of equal doubles when it is zero, hence it is +0,
and dividing by it yields NaN for a zero dividend and a signed infinity
otherwise, exactly as in IEEE-754. -/
def jsDivInt (a b : ℤ) : JSNum :=
  if b = 0 then
    if a = 0 then JSNum.nan
    else if 0 < a then JSNum.posInf
    else JSNum.negInf
  else JSNum.fin ((a : ℚ) / (b : ℚ))

/-- Embedding of calculatePosition (src/main.ts lines 346-351):

    const total = latest.getTime() - oldest.getTime();
    const current = latest.getTime() - date.getTime();
    const position = (current / total) * 100;
    return Math.min(Math.max(position, 0), 100);

The arguments are the getTime values of the three dates. -/
def calculatePosition (date oldest latest : ℤ) : JSNum :=
  let total := latest - oldest
  let current := latest - date
  let position := (jsDivInt current total).mul100
  (position.jsMax 0).jsMin 100

/-- Embedding of the collision-resolution loop of adjustPosition
(src/main.ts lines 357-365):

    const threshold = 2;
    let newPos = position;
    while (occupied.some(pos => Math.abs(pos - newPos) < threshold)) {
        newPos += threshold;
        if (newPos > 100) break;
    }
    return newPos;

The loop body is the recursive call; the break returns the incremented
value directly.  Candidates and occupied positions are finite numbers,
modelled as rationals. -/
def adjustGo (occupied : List ℚ) (newPos : ℚ) : ℚ :=
  if occupied.any (fun pos => decide (|pos - newPos| < 2)) then
    if h2 : newPos + 2 > 100 then newPos + 2
    else adjustGo occupied (newPos + 2)
  else newPos
termination_by (⌈(100 - newPos : ℚ)⌉).toNat
decreasing_by
  push_neg at h2
  have hsub : (100 - (newPos + 2) : ℚ) = (100 - newPos) - ((2 : ℤ) : ℚ) := by
    push_cast
    ring
  have hceil : ⌈(100 - (newPos + 2) : ℚ)⌉ = ⌈(100 - newPos : ℚ)⌉ - 2 := by
    rw [hsub, Int.ceil_sub_int]
  have h2le : (2 : ℤ) ≤ ⌈(100 - newPos : ℚ)⌉ := by
    have h : ((2 : ℤ) : ℚ) ≤ 100 - newPos := by
      push_cast
      linarith
    calc (2 : ℤ) = ⌈((2 : ℤ) : ℚ)⌉ := by simp
    _ ≤ ⌈(100 - newPos : ℚ)⌉ := Int.ceil_le_ceil h
  omega

/-- Embedding of adjustPosition (src/main.ts lines 357-365): runs the
collision loop starting from the raw candidate position. -/
def adjustPosition (position : ℚ) (occupied : List ℚ) : ℚ :=
  adjustGo occupied position

/-- Fuel-indexed version of the collision loop, structurally recursive on
the fuel: it returns none when the fuel runs out before the loop exits.
Used to state that the while loop terminates. -/
def adjustFuel (occupied : List ℚ) : ℕ → ℚ → Option ℚ
  | 0, _ => none
  | Nat.succ fuel, newPos =>
    if occupied.any (fun pos => decide (|pos - newPos| < 2)) then
      if newPos + 2 > 100 then some (newPos + 2)
      else adjustFuel occupied fuel (newPos + 2)
    else some newPos

/-- Embedding of the per-item placement loop of renderTimeline
(src/main.ts lines 274-297): each raw candidate position is adjusted
against the occupied positions accumulated so far, and the resolved value
is pushed onto the occupied list before the next item is processed. -/
def resolveAux (occupied : List ℚ) : List ℚ → List ℚ
  | [] => []
  | c :: cs =>
    let p := adjustPosition c occupied
    p :: resolveAux (occupied ++ [p]) cs

/-- The full collision-resolution pass, starting from an empty occupied
list as in renderTimeline. -/
def resolvePositions (candidates : List ℚ) : List ℚ :=
  resolveAux [] candidates

/-- Embedding of the year-label loop of renderTimeline (src/main.ts lines
262-270).  getYear abstracts Date.prototype.getFullYear and jan1 abstracts
the getTime value of new Date(year, 0, 1); the loop runs from the year of
the oldest date to the year of the latest date inclusive and positions
each marker with calculatePosition on January 1 of that year against the
same range used for the items. -/
def yearMarkers (getYear jan1 : ℤ → ℤ) (oldest latest : ℤ) : List (ℤ × JSNum) :=
  (List.range (getYear latest - getYear oldest + 1).toNat).map
    (fun i : ℕ =>
      let y : ℤ := getYear oldest + (i : ℤ)
      (y, calculatePosition (jan1 y) oldest latest))

/-- Search mode setting (src/main.ts line 9). -/
inductive SearchIn where
  | frontmatter : SearchIn
  | inline : SearchIn
  | both : SearchIn
deriving DecidableEq

/-- The tags field of a frontmatter block as the selector distinguishes it
(src/main.ts lines 183-191): absent or falsy, an array of strings, a
non-empty string, or a value of any other type.  JavaScript strings are
modelled as lists of characters. -/
inductive FMTags where
  | absent : FMTags
  | arr : List (List Char) → FMTags
  | str : List Char → FMTags
  | other : FMTags
deriving DecidableEq

/-- JavaScript content.includes(tag) (substring containment): true when
pat occurs as a contiguous run inside the list. -/
def strIncludes (pat : List Char) : List Char → Bool
  | [] => pat.isEmpty
  | c :: rest => pat.isPrefixOf (c :: rest) || strIncludes pat rest

/-- Tag normalization (src/main.ts line 169): the JavaScript
tag.startsWith(\x22#\x22) ? tag.slice(1) : tag, stripping one leading
hash. -/
def normalizedTag (tag : List Char) : List Char :=
  match tag with
  | '#' :: rest => rest
  | t => t

/-- JavaScript String.prototype.split(\x22,\x22): cut the string at every
comma. -/
def splitComma (cur : List Char) : List Char → List (List Char)
  | [] => [cur.reverse]
  | c :: rest =>
    if c = ',' then cur.reverse :: splitComma [] rest
    else splitComma (c :: cur) rest

/-- JavaScript String.prototype.trim: remove whitespace from both ends. -/
def isWhite (c : Char) : Bool :=
  c = ' ' || c = '\t' || c = '\n' || c = '\r'

/-- Trim a character list on both ends. -/
def trimChars (s : List Char) : List Char :=
  ((s.dropWhile isWhite).reverse.dropWhile isWhite).reverse

/-- Frontmatter tag check (src/main.ts lines 182-193): an array matches by
membership of the normalized tag, a string is split on commas and each
piece trimmed before membership, anything else never matches.  The empty
string is falsy in the JavaScript truthiness guard, so it is excluded; an
empty array is truthy and proceeds to the membership test. -/
def frontmatterHasTag (tags : FMTags) (ntag : List Char) : Bool :=
  match tags with
  | FMTags.absent => false
  | FMTags.arr l => l.contains ntag
  | FMTags.str s =>
    if s = [] then false
    else ((splitComma [] s).map trimChars).contains ntag
  | FMTags.other => false

/-- Document selection predicate (src/main.ts lines 179-199): the
frontmatter check runs in frontmatter or both mode; the inline substring
check of the un-normalized configured tag runs in inline or both mode only
when the frontmatter check has not already matched. -/
def docHasTag (searchIn : SearchIn) (tags : FMTags) (content : List Char) (tag : List Char) :
    Bool :=
  let ntag := normalizedTag tag
  let fmHas : Bool :=
    if searchIn = SearchIn.frontmatter ∨ searchIn = SearchIn.both
    then frontmatterHasTag tags ntag
    else false
  if fmHas = false ∧ (searchIn = SearchIn.inline ∨ searchIn = SearchIn.both)
  then strIncludes tag content
  else fmHas

/-- Date resolution for one file (src/main.ts lines 220-234).  The
JavaScript Date constructor is abstracted as a parse function returning
some timestamp on a valid date string and none when the string does not
parse, in which case new Date produces an Invalid Date whose time value is
NaN.  propValue is some s exactly when the configured date property is
present in the frontmatter and truthy; ctime is the storage creation time
when available; now is the current time. -/
def resolveItemDate (parse : String → Option ℤ) (propValue : Option String)
    (ctime : Option ℤ) (now : ℤ) : JSNum :=
  match propValue with
  | some s =>
    match parse s with
    | some t => JSNum.fin t
    | none => JSNum.nan
  | none =>
    match ctime with
    | some c => JSNum.fin c
    | none => JSNum.fin now

/-- A sample parser recognising a single date string, used to instantiate
theorems about the date resolver at concrete inputs. -/
def parseSample : String → Option ℤ :=
  fun s => if s = "2023-01-01" then some 1672531200000 else none

/-!  Theorems.  -/

/-- Unfolding lemma exposing the arithmetic of calculatePosition. -/
theorem calculatePosition_eq (date oldest latest : ℤ) :
    calculatePosition date oldest latest =
      ((jsDivInt (latest - date) (latest - oldest)).mul100.jsMax 0).jsMin 100 := rfl

example : calculatePosition 0 0 10 = JSNum.fin 100 := by
  norm_num [calculatePosition, jsDivInt, JSNum.mul100, JSNum.jsMax, JSNum.jsMin]
example : calculatePosition 10 0 10 = JSNum.fin 0 := by
  norm_num [calculatePosition, jsDivInt, JSNum.mul100, JSNum.jsMax, JSNum.jsMin]
example : calculatePosition 5 0 10 = JSNum.fin 50 := by
  norm_num [calculatePosition, jsDivInt, JSNum.mul100, JSNum.jsMax, JSNum.jsMin]
example : calculatePosition 999 1000 1000 = JSNum.fin 100 := by decide

/-- Closed form of calculatePosition on a non-degenerate range. -/
theorem calculatePosition_of_ne (date oldest latest : ℤ) (h : latest - oldest ≠ 0) :
    calculatePosition date oldest latest =
      JSNum.fin (min (max (((latest - date : ℤ) : ℚ) / ((latest - oldest : ℤ) : ℚ) * 100) 0)
        100) := by
  rw [calculatePosition_eq]
  simp [jsDivInt, h, JSNum.mul100, JSNum.jsMax, JSNum.jsMin, max_def, min_def]

theorem adjustGo_break (occupied : List ℚ) (p : ℚ)
    (hc : (occupied.any fun pos => decide (|pos - p| < 2)) = true)
    (h2 : p + 2 > 100) : adjustGo occupied p = p + 2 := by
  rw [adjustGo]
  simp only [hc, if_true, dif_pos h2]

theorem adjustGo_step (occupied : List ℚ) (p : ℚ)
    (hc : (occupied.any fun pos => decide (|pos - p| < 2)) = true)
    (h2 : ¬p + 2 > 100) : adjustGo occupied p = adjustGo occupied (p + 2) := by
  rw [adjustGo]
  simp only [hc, if_true, dif_neg h2]

theorem adjustGo_done (occupied : List ℚ) (p : ℚ)
    (hc : ¬(occupied.any fun pos => decide (|pos - p| < 2)) = true) :
    adjustGo occupied p = p := by
  rw [adjustGo]
  exact if_neg hc

theorem adjustGo_ge (occupied : List ℚ) (newPos : ℚ) :
    newPos ≤ adjustGo occupied newPos := by
  refine adjustGo.induct occupied (fun p => p ≤ adjustGo occupied p) ?_ ?_ ?_ newPos
  · intro p hc h2
    rw [adjustGo_break occupied p hc h2]
    linarith
  · intro p hc h2 ih
    rw [adjustGo_step occupied p hc h2]
    linarith
  · intro p hc
    rw [adjustGo_done occupied p hc]

theorem adjustGo_le (occupied : List ℚ) (newPos : ℚ) (h : newPos ≤ 100) :
    adjustGo occupied newPos ≤ 102 := by
  refine adjustGo.induct occupied (fun p => p ≤ 100 → adjustGo occupied p ≤ 102)
    ?_ ?_ ?_ newPos h
  · intro p hc h2 hp
    rw [adjustGo_break occupied p hc h2]
    linarith
  · intro p hc h2 ih hp
    rw [adjustGo_step occupied p hc h2]
    push_neg at h2
    exact ih (by linarith)
  · intro p hc hp
    rw [adjustGo_done occupied p hc]
    linarith

/-- When the loop returns a value at most 100, it exited normally, so the
value is at least the threshold away from every occupied position. -/
theorem adjustGo_sep (occupied : List ℚ) (newPos : ℚ)
    (hle : adjustGo occupied newPos ≤ 100) :
    ∀ q ∈ occupied, 2 ≤ |q - adjustGo occupied newPos| := by
  refine adjustGo.induct occupied
    (fun p => adjustGo occupied p ≤ 100 → ∀ q ∈ occupied, 2 ≤ |q - adjustGo occupied p|)
    ?_ ?_ ?_ newPos hle
  · intro p hc h2 hle2 q hq
    rw [adjustGo_break occupied p hc h2] at hle2
    linarith
  · intro p hc h2 ih hle2 q hq
    rw [adjustGo_step occupied p hc h2] at hle2 ⊢
    exact ih hle2 q hq
  · intro p hc hle2 q hq
    rw [adjustGo_done occupied p hc] at hle2 ⊢
    simp only [List.any_eq_true, decide_eq_true_eq] at hc
    push_neg at hc
    exact hc q hq

/-- A candidate already separated from every occupied position is returned
unchanged. -/
theorem adjustGo_of_separated (occupied : List ℚ) (p : ℚ)
    (h : ∀ q ∈ occupied, 2 ≤ |q - p|) : adjustGo occupied p = p := by
  apply adjustGo_done
  simp only [List.any_eq_true, decide_eq_true_eq]
  push_neg
  exact h

theorem resolveAux_sep (cs : List ℚ) :
    ∀ occupied : List ℚ,
      (∀ p ∈ resolveAux occupied cs, p ≤ 100 → ∀ q ∈ occupied, 2 ≤ |q - p|) ∧
      List.Pairwise (fun a b => a ≤ 100 → b ≤ 100 → 2 ≤ |a - b|) (resolveAux occupied cs) := by
  induction cs with
  | nil =>
    intro occ
    constructor
    · intro p hp
      simp [resolveAux] at hp
    · simp [resolveAux]
  | cons c cs ih =>
    intro occ
    have hunf : resolveAux occ (c :: cs) =
        adjustPosition c occ :: resolveAux (occ ++ [adjustPosition c occ]) cs := rfl
    constructor
    · intro p hp hple q hq
      rw [hunf] at hp
      rcases List.mem_cons.mp hp with rfl | hp2
      · exact adjustGo_sep occ c hple q hq
      · exact (ih (occ ++ [adjustPosition c occ])).1 p hp2 hple q (List.mem_append_left _ hq)
    · rw [hunf]
      refine List.pairwise_cons.mpr ⟨?_, (ih (occ ++ [adjustPosition c occ])).2⟩
      intro b hb _ hb100
      exact (ih (occ ++ [adjustPosition c occ])).1 b hb hb100
        (adjustPosition c occ) (List.mem_append_right _ (List.mem_singleton.mpr rfl))

/-- Candidates that are pairwise separated, and separated from the initial
occupied list, pass through the resolution loop unchanged. -/
theorem resolveAux_id (cs : List ℚ) :
    ∀ occupied : List ℚ,
      List.Pairwise (fun a b => 2 ≤ |a - b|) cs →
      (∀ c ∈ cs, ∀ q ∈ occupied, 2 ≤ |q - c|) →
      resolveAux occupied cs = cs := by
  induction cs with
  | nil =>
    intro occ _ _
    rfl
  | cons c cs ih =>
    intro occ hp hocc
    have hadj : adjustPosition c occ = c :=
      adjustGo_of_separated occ c (hocc c (List.mem_cons_self c cs))
    have hunf : resolveAux occ (c :: cs) =
        adjustPosition c occ :: resolveAux (occ ++ [adjustPosition c occ]) cs := rfl
    rw [hunf, hadj]
    congr 1
    apply ih
    · exact List.Pairwise.of_cons hp
    · intro c2 hc2 q hq
      rcases List.mem_append.mp hq with hq1 | hq2
      · exact hocc c2 (List.mem_cons_of_mem c hc2) q hq1
      · rw [List.mem_singleton.mp hq2]
        exact (List.pairwise_cons.mp hp).1 c2 hc2

/-- C6: in both mode the frontmatter tag check runs first and a frontmatter
match selects the document for every possible raw content, without the
inline check; only when the frontmatter check does not match is the result
the inline substring check of the configured tag in the content. -/
theorem both_mode_frontmatter_first (tags : FMTags) (content : List Char) (tag : List Char) :
    (frontmatterHasTag tags (normalizedTag tag) = true →
      docHasTag SearchIn.both tags content tag = true) ∧
    (frontmatterHasTag tags (normalizedTag tag) = false →
      docHasTag SearchIn.both tags content tag = strIncludes tag content) := by
  constructor <;> intro h <;> simp [docHasTag, h]

theorem both_mode_frontmatter_first_witness :
    docHasTag SearchIn.both (FMTags.arr ["timeline".data]) "no tags here".data
      "#timeline".data = true :=
  (both_mode_frontmatter_first (FMTags.arr ["timeline".data]) "no tags here".data
    "#timeline".data).1 (by decide)

/-- C7: in inline mode the match predicate is substring containment of the
literal configured tag, hash included, in the raw content, not containment
of the normalized hash-stripped tag: a content containing the bare word
timeline does not match the configured tag hash-timeline even though it
contains the normalized form. -/
theorem inline_mode_literal_tag :
    (∀ (tags : FMTags) (content tag : List Char),
      docHasTag SearchIn.inline tags content tag = strIncludes tag content) ∧
    docHasTag SearchIn.inline FMTags.absent "some timeline text".data "#timeline".data = false ∧
    strIncludes (normalizedTag "#timeline".data) "some timeline text".data = true := by
  refine ⟨?_, ?_, ?_⟩
  · intro tags content tag
    simp [docHasTag]
  · decide
  · decide

theorem inline_mode_literal_tag_witness :
    docHasTag SearchIn.inline FMTags.absent "some timeline text".data "#timeline".data = false :=
  inline_mode_literal_tag.2.1

/-- C1: the source computes (0/0)*100 = NaN for the degenerate range where
every date equals the range bounds, so calculatePosition returns NaN, not
the defined degenerate value 0 demanded by the specification. -/
theorem calculatePosition_degenerate_nan (t : ℤ) :
    calculatePosition t t t = JSNum.nan := by
  rw [calculatePosition_eq]
  simp [jsDivInt, JSNum.mul100, JSNum.jsMax, JSNum.jsMin]

/-- C4: for every date and range, calculatePosition either returns a
finite number in the interval from 0 to 100, or the range is degenerate
with the date equal to its bounds and the function returns NaN, which is
not a value of that interval. -/
theorem calculatePosition_bounds_or_nan (date oldest latest : ℤ) :
    (oldest = latest ∧ date = latest ∧ calculatePosition date oldest latest = JSNum.nan) ∨
    (∃ q : ℚ, calculatePosition date oldest latest = JSNum.fin q ∧ 0 ≤ q ∧ q ≤ 100) := by
  by_cases h0 : latest - oldest = 0
  · by_cases h1 : latest - date = 0
    · left
      refine ⟨by omega, by omega, ?_⟩
      rw [calculatePosition_eq]
      simp [jsDivInt, h0, h1, JSNum.mul100, JSNum.jsMax, JSNum.jsMin]
    · right
      by_cases h2 : 0 < latest - date
      · refine ⟨100, ?_, by norm_num, le_rfl⟩
        rw [calculatePosition_eq]
        simp [jsDivInt, h0, h1, h2, JSNum.mul100, JSNum.jsMax, JSNum.jsMin]
      · refine ⟨0, ?_, le_rfl, by norm_num⟩
        rw [calculatePosition_eq]
        norm_num [jsDivInt, h0, h1, h2, JSNum.mul100, JSNum.jsMax, JSNum.jsMin]
  · right
    refine ⟨min (max (((latest - date : ℤ) : ℚ) / ((latest - oldest : ℤ) : ℚ) * 100) 0) 100,
      calculatePosition_of_ne date oldest latest h0, ?_, min_le_right _ _⟩
    exact le_min (le_max_right _ _) (by norm_num)

/-- C2: when the configured date property is present but does not parse as
a date, the source constructs an Invalid Date whose time value is NaN and
uses it, instead of falling back to the storage creation time; the
fallback is used only when the property is absent or falsy. -/
theorem date_resolver_invalid_propagates :
    resolveItemDate parseSample (some "not-a-date") (some 1234) 5678 = JSNum.nan ∧
    resolveItemDate parseSample none (some 1234) 5678 = JSNum.fin 1234 ∧
    resolveItemDate parseSample (some "2023-01-01") none 5678 = JSNum.fin 1672531200000 := by
  refine ⟨?_, ?_, ?_⟩ <;> decide

/-- C9: the collision loop only ever moves a candidate down, and a
candidate at most 100 is moved to at most 102, because the loop breaks
immediately after the first increment that passes 100. -/
theorem adjustPosition_monotone_bounded (position : ℚ) (occupied : List ℚ) :
    position ≤ adjustPosition position occupied ∧
    (position ≤ 100 → adjustPosition position occupied ≤ 102) :=
  ⟨adjustGo_ge occupied position, fun h => adjustGo_le occupied position h⟩

theorem adjustPosition_monotone_bounded_witness :
    (50 : ℚ) ≤ adjustPosition 50 [] ∧ adjustPosition 50 [] ≤ 102 :=
  ⟨(adjustPosition_monotone_bounded 50 []).1,
   (adjustPosition_monotone_bounded 50 []).2 (by decide)⟩

/-- C10: the collision loop terminates on every finite candidate and
occupied list: some finite fuel makes the fuel-indexed loop return the
same value as the loop itself. -/
theorem adjustPosition_terminates (position : ℚ) (occupied : List ℚ) :
    ∃ fuel : ℕ, adjustFuel occupied fuel position = some (adjustPosition position occupied) := by
  unfold adjustPosition
  refine adjustGo.induct occupied
    (fun p => ∃ fuel, adjustFuel occupied fuel p = some (adjustGo occupied p)) ?_ ?_ ?_ position
  · intro p hc h2
    refine ⟨1, ?_⟩
    rw [adjustGo_break occupied p hc h2]
    simp [adjustFuel, hc, h2]
  · intro p hc h2 ih
    obtain ⟨fuel, hf⟩ := ih
    refine ⟨fuel + 1, ?_⟩
    rw [adjustGo_step occupied p hc h2]
    simp only [adjustFuel, hc, if_true]
    rw [if_neg h2]
    exact hf
  · intro p hc
    refine ⟨1, ?_⟩
    rw [adjustGo_done occupied p hc]
    simp [adjustFuel, hc]

theorem adjustPosition_terminates_witness :
    ∃ fuel : ℕ, adjustFuel [] fuel 30 = some (adjustPosition 30 []) :=
  adjustPosition_terminates 30 []

/-- C3: after the sequential resolution pass, in which every resolved
position joins the occupied set before the next item is processed, any two
resolved positions that are both at most 100 differ by at least the
threshold 2. -/
theorem resolved_positions_separated (candidates : List ℚ) :
    List.Pairwise (fun a b => a ≤ 100 → b ≤ 100 → 2 ≤ |a - b|) (resolvePositions candidates) :=
  (resolveAux_sep candidates []).2

/-- Concrete evaluation of the resolution pass on two separated
candidates. -/
theorem resolvePositions_sample : resolvePositions [0, 10] = [0, 10] := by
  show adjustGo [] 0 :: resolveAux ([] ++ [adjustGo [] 0]) [10] = [0, 10]
  rw [adjustGo_done [] 0 (by decide)]
  show (0 : ℚ) :: adjustGo [0] 10 :: _ = [0, 10]
  rw [adjustGo_done [0] 10 (by norm_num)]
  rfl

theorem resolved_positions_separated_witness : 2 ≤ |(0 : ℚ) - 10| := by
  have h := resolved_positions_separated [0, 10]
  rw [resolvePositions_sample] at h
  exact (List.pairwise_cons.mp h).1 10 (List.mem_singleton.mpr rfl) (by decide) (by decide)

/-- On a proper range a later date gets a position no larger than an
earlier date: the scale is inverted. -/
theorem calculatePosition_antitone (d1 d2 oldest latest : ℤ)
    (h : oldest < latest) (hd : d2 ≤ d1) :
    (calculatePosition d1 oldest latest).toQ ≤ (calculatePosition d2 oldest latest).toQ := by
  have hne : (latest - oldest : ℤ) ≠ 0 := by omega
  rw [calculatePosition_of_ne d1 oldest latest hne, calculatePosition_of_ne d2 oldest latest hne]
  simp only [JSNum.toQ]
  have htot : (0 : ℚ) < ((latest - oldest : ℤ) : ℚ) := by
    have h2 : (0 : ℤ) < latest - oldest := by omega
    exact_mod_cast h2
  have hnum : ((latest - d1 : ℤ) : ℚ) ≤ ((latest - d2 : ℤ) : ℚ) := by
    have h2 : (latest - d1 : ℤ) ≤ (latest - d2 : ℤ) := by omega
    exact_mod_cast h2
  have hdiv : ((latest - d1 : ℤ) : ℚ) / ((latest - oldest : ℤ) : ℚ) * 100 ≤
      ((latest - d2 : ℤ) : ℚ) / ((latest - oldest : ℤ) : ℚ) * 100 := by
    apply mul_le_mul_of_nonneg_right _ (by norm_num)
    exact (div_le_div_iff_of_pos_right htot).mpr hnum
  exact min_le_min (max_le_max hdiv le_rfl) le_rfl

/-- C5: when the raw candidate positions of a descending-date item list
over a proper range are pairwise at least the threshold apart, the
resolution pass returns every position unchanged and the positions are in
weakly increasing order, preserving the descending-date order on the
inverted scale. -/
theorem no_collision_preserves_order (dates : List ℤ) (oldest latest : ℤ)
    (hrange : oldest < latest)
    (hsorted : List.Pairwise (fun a b => b ≤ a) dates)
    (hsep : List.Pairwise (fun a b => 2 ≤ |a - b|)
      (dates.map (fun d => (calculatePosition d oldest latest).toQ))) :
    resolvePositions (dates.map (fun d => (calculatePosition d oldest latest).toQ)) =
      dates.map (fun d => (calculatePosition d oldest latest).toQ) ∧
    List.Pairwise (fun a b => a ≤ b)
      (dates.map (fun d => (calculatePosition d oldest latest).toQ)) := by
  constructor
  · apply resolveAux_id _ _ hsep
    intro c _ q hq
    simp at hq
  · rw [List.pairwise_map]
    exact List.Pairwise.imp
      (fun hab => calculatePosition_antitone _ _ oldest latest hrange hab) hsorted

/-- Concrete candidate positions for three dates over the range 0 to 20. -/
theorem calculatePosition_sample_list :
    (([20, 10, 0] : List ℤ).map (fun d => (calculatePosition d 0 20).toQ)) = [0, 50, 100] := by
  norm_num [calculatePosition, jsDivInt, JSNum.mul100, JSNum.jsMax, JSNum.jsMin, JSNum.toQ]

/-- The three concrete candidate positions are pairwise separated. -/
theorem calculatePosition_sample_sep :
    List.Pairwise (fun a b => 2 ≤ |a - b|)
      (([20, 10, 0] : List ℤ).map (fun d => (calculatePosition d 0 20).toQ)) := by
  rw [calculatePosition_sample_list]
  norm_num [List.pairwise_cons]

theorem no_collision_preserves_order_witness :
    resolvePositions (([20, 10, 0] : List ℤ).map (fun d => (calculatePosition d 0 20).toQ)) =
      ([20, 10, 0] : List ℤ).map (fun d => (calculatePosition d 0 20).toQ) :=
  (no_collision_preserves_order [20, 10, 0] 0 20 (by decide) (by decide)
    calculatePosition_sample_sep).1

/-- The year labels of the markers, in closed form. -/
theorem yearMarkers_fst (getYear jan1 : ℤ → ℤ) (oldest latest : ℤ) :
    (yearMarkers getYear jan1 oldest latest).map Prod.fst =
      (List.range (getYear latest - getYear oldest + 1).toNat).map
        (fun i : ℕ => getYear oldest + (i : ℤ)) := by
  rw [yearMarkers, List.map_map]
  rfl

/-- C8: the marker list carries exactly one marker per calendar year from
the year of the oldest date to the year of the latest date inclusive, and
every marker is positioned by calculatePosition on January 1 of its year
against the same range used for the items. -/
theorem year_markers_complete (getYear jan1 : ℤ → ℤ) (oldest latest : ℤ)
    (h : getYear oldest ≤ getYear latest) :
    (∀ y : ℤ, y ∈ (yearMarkers getYear jan1 oldest latest).map Prod.fst ↔
      getYear oldest ≤ y ∧ y ≤ getYear latest) ∧
    ((yearMarkers getYear jan1 oldest latest).map Prod.fst).Nodup ∧
    (∀ m ∈ yearMarkers getYear jan1 oldest latest,
      m.2 = calculatePosition (jan1 m.1) oldest latest) := by
  refine ⟨?_, ?_, ?_⟩
  · intro y
    rw [yearMarkers_fst]
    constructor
    · intro hy
      obtain ⟨i, hi, rfl⟩ := List.mem_map.mp hy
      have hi2 := List.mem_range.mp hi
      omega
    · rintro ⟨h1, h2⟩
      refine List.mem_map.mpr ⟨(y - getYear oldest).toNat, List.mem_range.mpr ?_, ?_⟩
      · omega
      · omega
  · rw [yearMarkers_fst]
    refine List.Nodup.map ?_ (List.nodup_range _)
    intro a b hab
    have h2 : (a : ℤ) = b := by simpa using hab
    exact_mod_cast h2
  · intro m hm
    simp only [yearMarkers, List.mem_map, List.mem_range] at hm
    obtain ⟨i, hi, rfl⟩ := hm
    rfl

theorem year_markers_complete_witness :
    ((yearMarkers (fun t => t) (fun t => t) 0 2).map Prod.fst).Nodup :=
  (year_markers_complete (fun t => t) (fun t => t) 0 2 (by decide)).2.1
